import Mathlib

/-!
Verification development for the Backup Manager program
(`src/Backup-manager.py`).

The program copies files from a source directory tree to a backup
directory tree, tracks per-file metadata in a SQLite store (tables
`meta`, `backups`, `files`), and offers three modes: full copy, smart
(incremental) copy, and clean (orphan removal).

Shallow embedding choices:
* timestamps (`datetime.now().isoformat()`) are modelled as an abstract
  `Timestamp` carrying a calendar-day number and a time-of-day, since
  only ordering/day-difference matters to the properties;
* the SQLite tables are modelled as association/append lists inside a
  `Store` record; `INSERT OR REPLACE` is the `upsert` operation;
* the source walk (`os.walk`) is modelled as a list of `SrcFile`
  entries; each entry carries two environment flags: `statOk` (does
  `os.stat` succeed, i.e. `get_file_info` returns a size) and `copyOk`
  (does `shutil.copy2` succeed without raising);
* the destination tree's files are modelled as an association list from
  relative path to file size; `dst_file.exists()` is a key lookup.
-/

/-- A point in time: calendar day number plus a time-of-day in seconds.
Models the ISO-8601 strings the program stores; whole-day differences
compare only the `day` field (calendar-day truncation). -/
structure Timestamp where
  day : Int
  tod : Nat
deriving Repr, DecidableEq

/-- A row of the `files` table (`file_path` is the association key):
`file_size`, `last_modified`, `last_backup`.  Mirrors the schema created
by `init_database`. -/
structure FileRec where
  size : Nat
  mtime : Int
  lastBackup : Timestamp
deriving Repr, DecidableEq

/-- A row of the `backups` table, as inserted by `record_backup`. -/
structure HistoryEntry where
  backupType : String
  timestamp : Timestamp
  fileCount : Nat
  sourcePath : String
  backupPath : String
deriving Repr, DecidableEq

/-- The persistent metadata store: the `meta` key/value table, the
append-only `backups` table, and the `files` table keyed by relative
path. -/
structure Store where
  meta : List (String × Timestamp)
  history : List HistoryEntry
  files : List (String × FileRec)
deriving Repr, DecidableEq

/-- `INSERT OR REPLACE`: the row with key `k` (if any) is replaced by
`(k, v)`; all other rows are kept. -/
def upsert {α : Type} (l : List (String × α)) (k : String) (v : α) :
    List (String × α) :=
  (k, v) :: l.filter (fun q => !(q.1 == k))

/-- A regular file yielded by the `os.walk` over the source tree:
relative path, size, modification time, and the two per-file
environment outcomes (`os.stat` success, `shutil.copy2` success). -/
structure SrcFile where
  relPath : String
  size : Nat
  mtime : Int
  statOk : Bool
  copyOk : Bool
deriving Repr, DecidableEq

/-- State evolved by a full/smart run: the destination tree's files,
the store, and the three counters printed in the summary. -/
structure RunState where
  dest : List (String × Nat)
  store : Store
  copied : Nat
  skipped : Nat
  errors : Nat
deriving Repr, DecidableEq

/-- `dst_file.exists()` for the destination tree model. -/
def destExists (path : String) (dest : List (String × Nat)) : Bool :=
  (List.lookup path dest).isSome

/-- The change-classification cascade inlined in `smart_backup`
(lines 205-212): new file, size changed, or backup copy missing. -/
def needsCopy (fileRecords : List (String × FileRec)) (relPath : String)
    (size : Nat) (dstExists : Bool) : Bool :=
  match List.lookup relPath fileRecords with
  | none => true
  | some r =>
    if r.size ≠ size then true
    else if !dstExists then true
    else false

/-- One iteration of the per-file loop of `smart_backup`: a failed
`get_file_info` means `continue`; otherwise the classifier decides; a
copy either succeeds (copy file, bump `files_copied`, upsert the record
via `update_file_record`) or raises (bump `errors`); otherwise
`files_skipped` is bumped.  `fileRecords` is the snapshot loaded once by
`get_all_file_records` at the start of the run. -/
def smartStep (fileRecords : List (String × FileRec)) (now : Timestamp)
    (st : RunState) (f : SrcFile) : RunState :=
  if f.statOk = false then st
  else if needsCopy fileRecords f.relPath f.size (destExists f.relPath st.dest) then
    if f.copyOk then
      { st with
        dest := upsert st.dest f.relPath f.size
        copied := st.copied + 1
        store := { st.store with
          files := upsert st.store.files f.relPath ⟨f.size, f.mtime, now⟩ } }
    else { st with errors := st.errors + 1 }
  else { st with skipped := st.skipped + 1 }

/-- One iteration of the per-file loop of `full_backup`: `shutil.copy2`
runs unconditionally (a raise bumps `errors` and skips the rest of the
body); on success `files_copied` is bumped and, when `get_file_info`
succeeds, the record is upserted. -/
def fullStep (now : Timestamp) (st : RunState) (f : SrcFile) : RunState :=
  if f.copyOk = false then { st with errors := st.errors + 1 }
  else
    let st1 := { st with
      dest := upsert st.dest f.relPath f.size
      copied := st.copied + 1 }
    if f.statOk then
      { st1 with store := { st1.store with
          files := upsert st1.store.files f.relPath ⟨f.size, f.mtime, now⟩ } }
    else st1

/-- Initial run state: destination and store as found, zero counters. -/
def initRun (dest : List (String × Nat)) (store : Store) : RunState :=
  ⟨dest, store, 0, 0, 0⟩

/-- `smart_backup(source_dir, backup_dir)`.  `source = none` models a
missing source root: the function returns before touching anything.
Otherwise the records are snapshotted, every file is processed, and the
terminal step runs `record_backup("smart", ...)` with `files_copied`
and `update_last_backup_date`. -/
def smartBackup (now : Timestamp) (sourceName backupName : String)
    (source : Option (List SrcFile)) (dest : List (String × Nat))
    (store : Store) : RunState :=
  match source with
  | none => initRun dest store
  | some files =>
    let fileRecords := store.files
    let st := files.foldl (smartStep fileRecords now) (initRun dest store)
    { st with store := { st.store with
        history := st.store.history ++
          [⟨"smart", now, st.copied, sourceName, backupName⟩]
        meta := upsert st.store.meta "last_backup_date" now } }

/-- `full_backup(source_dir, backup_dir)`: same shape as the smart run
but every file goes through the unconditional copy step, and the
history entry has type `full`. -/
def fullBackup (now : Timestamp) (sourceName backupName : String)
    (source : Option (List SrcFile)) (dest : List (String × Nat))
    (store : Store) : RunState :=
  match source with
  | none => initRun dest store
  | some files =>
    let st := files.foldl (fullStep now) (initRun dest store)
    { st with store := { st.store with
        history := st.store.history ++
          [⟨"full", now, st.copied, sourceName, backupName⟩]
        meta := upsert st.store.meta "last_backup_date" now } }

/-- State evolved by a clean run: destination files, store, and the
`files_removed` counter. -/
structure CleanState where
  dest : List (String × Nat)
  store : Store
  removed : Nat
deriving Repr, DecidableEq

/-- The set of relative paths present under the source tree; an absent
source (`none`) yields the empty set, exactly as `clean_backup` only
fills `source_files` when `source_path.exists()`. -/
def sourceFileSet : Option (List String) → List String
  | none => []
  | some l => l

/-- One iteration of the per-file loop of `clean_backup` over the
destination walk: an orphaned file (relative path not among the source
paths) is unlinked and its record deleted (`remove_file_record`, a SQL
`DELETE ... WHERE file_path = ?`); otherwise nothing happens. -/
def cleanStep (sourceFiles : List String) (st : CleanState)
    (f : String × Nat) : CleanState :=
  if sourceFiles.contains f.1 then st
  else
    { dest := st.dest.filter (fun g => !(g.1 == f.1))
      store := { st.store with
        files := st.store.files.filter (fun r => !(r.1 == f.1)) }
      removed := st.removed + 1 }

/-- `clean_backup(source_dir, backup_dir)` under its precondition that
the backup directory exists: build the source path set, then process
every destination file.  Note the function ends with the summary print:
it calls neither `record_backup` nor `update_last_backup_date`. -/
def cleanBackup (source : Option (List String)) (dest : List (String × Nat))
    (store : Store) : CleanState :=
  let sourceFiles := sourceFileSet source
  dest.foldl (cleanStep sourceFiles) ⟨dest, store, 0⟩

/-!
Model of the destination tree as a directory tree, for the second pass
of `clean_backup` (the empty-directory removal, lines 296-304).  The
pass walks the destination with `os.walk(backup_path, topdown=False)`
(children before parents) and removes each listed subdirectory that is
empty at the moment of the check; `backup_path` itself is never one of
the listed `dirs`, so the root is never removed.
-/

/-- A node of the destination tree: a regular file or a directory with
its children. -/
inductive FSEntry where
  | file (name : String) : FSEntry
  | dir (name : String) (children : List FSEntry) : FSEntry

/-- Does any entry of the list transitively contain a regular file? -/
def containsFileList : List FSEntry → Bool
  | [] => false
  | .file _ :: _ => true
  | .dir _ ccs :: cs => containsFileList ccs || containsFileList cs

/-- Does this entry transitively contain a regular file? -/
def containsFile : FSEntry → Bool
  | .file _ => true
  | .dir _ cs => containsFileList cs

/-- Is the entry a directory with no children (`not any(p.iterdir())`)? -/
def isEmptyDir : FSEntry → Bool
  | .file _ => false
  | .dir _ cs => cs.isEmpty

/-- The bottom-up pass over a list of sibling entries: each child
directory is first processed below (the walk is `topdown=False`, so
everything deeper has already run), then removed exactly when it is
empty at that moment (`rmdir` after `not any(dir_path.iterdir())`). -/
def cleanDirList : List FSEntry → List FSEntry
  | [] => []
  | .file n :: cs => .file n :: cleanDirList cs
  | .dir n ccs :: cs =>
    if (cleanDirList ccs).isEmpty then cleanDirList cs
    else .dir n (cleanDirList ccs) :: cleanDirList cs

/-- The empty-directory pass applied at an entry that is itself kept:
files are untouched, a directory keeps its name and gets its children
processed. -/
def cleanEntry : FSEntry → FSEntry
  | .file n => .file n
  | .dir n cs => .dir n (cleanDirList cs)

/-- The whole second pass of `clean_backup`: the destination root's
children are processed; the root directory itself is never a candidate
for removal. -/
def cleanEmptyDirs (rootChildren : List FSEntry) : List FSEntry :=
  cleanDirList rootChildren

/-!
Overdue Checker.  The repository's `src/` has no such component (the
spec describes it in its section 4.4 and its operational surface); it
is modelled from the spec below.
-/

/-- Modelled from the spec: the result of the Overdue Checker's
`check()` — `Fresh(lastBackup, daysSince)`, `Overdue(lastBackup,
daysSince)`, or `NoHistory`.  The checker itself is absent from
`src/`. -/
inductive OverdueResult where
  | fresh (lastBackup : Timestamp) (daysSince : Int) : OverdueResult
  | overdue (lastBackup : Timestamp) (daysSince : Int) : OverdueResult
  | noHistory : OverdueResult
deriving Repr, DecidableEq

/-- Modelled from the spec: the default overdue threshold, 3 days. -/
def defaultOverdueThreshold : Int := 3

/-- Modelled from the spec: read the global last-backup-timestamp
setting; if absent, fall back to the most recent history entry of any
type (the last appended one, the history being append-only); if still
absent, there is no usable timestamp. -/
def lastBackupTimestamp (store : Store) : Option Timestamp :=
  match List.lookup "last_backup_date" store.meta with
  | some ts => some ts
  | none => (store.history.getLast?).map HistoryEntry.timestamp

/-- Modelled from the spec: whole-day difference between two instants
using calendar-day truncation — only the calendar day numbers are
compared, not fractional hours. -/
def daysBetween (now last : Timestamp) : Int :=
  now.day - last.day

/-- Modelled from the spec: `check()` — `NoHistory` when no timestamp
can be found, otherwise `Overdue` exactly when the whole-day difference
strictly exceeds the threshold, else `Fresh`. -/
def checkOverdue (store : Store) (now : Timestamp) (thresholdDays : Int) :
    OverdueResult :=
  match lastBackupTimestamp store with
  | none => .noHistory
  | some ts =>
    let d := daysBetween now ts
    if d > thresholdDays then .overdue ts d else .fresh ts d

/-! Association-list lemmas about `upsert`, `List.lookup`, `filter`. -/

theorem lookup_filter_ne {α : Type} {q k : String} (h : q ≠ k)
    (l : List (String × α)) :
    List.lookup q (l.filter (fun p => !(p.1 == k))) = List.lookup q l := by
  induction l with
  | nil => rfl
  | cons p t ih =>
    obtain ⟨a, b⟩ := p
    by_cases hak : a = k
    · subst hak
      have hqa : (q == a) = false := by simp [h]
      simp [List.filter_cons, List.lookup_cons, hqa, ih]
    · by_cases hqa : q = a
      · subst hqa
        simp [List.filter_cons, hak, List.lookup_cons]
      · simp [List.filter_cons, hak, List.lookup_cons, hqa, ih]

theorem lookup_upsert_self {α : Type} (l : List (String × α)) (k : String)
    (v : α) : List.lookup k (upsert l k v) = some v := by
  simp [upsert, List.lookup_cons]

theorem lookup_upsert_ne {α : Type} {q k : String} (h : q ≠ k)
    (l : List (String × α)) (v : α) :
    List.lookup q (upsert l k v) = List.lookup q l := by
  have hqk : (q == k) = false := by simp [h]
  simp [upsert, List.lookup_cons, hqk, lookup_filter_ne h]

theorem lookup_upsert_isSome {α : Type} {q : String}
    (l : List (String × α)) (k : String) (v : α)
    (h : (List.lookup q l).isSome = true) :
    (List.lookup q (upsert l k v)).isSome = true := by
  by_cases hqk : q = k
  · subst hqk; simp [lookup_upsert_self]
  · rw [lookup_upsert_ne hqk]; exact h

theorem lookup_filter_key {α : Type} (p : String → Bool) (q : String)
    (l : List (String × α)) :
    List.lookup q (l.filter (fun e => p e.1)) =
      if p q then List.lookup q l else none := by
  induction l with
  | nil => simp
  | cons e t ih =>
    obtain ⟨a, b⟩ := e
    by_cases hqa : q = a
    · subst hqa
      by_cases hp : p q
      · simp [List.filter_cons, hp, List.lookup_cons, ih]
      · simp [List.filter_cons, hp, List.lookup_cons, ih]
    · have hne : (q == a) = false := by simp [hqa]
      by_cases hp : p a
      · simp [List.filter_cons, hp, List.lookup_cons, hne, ih]
      · simp [List.filter_cons, hp, List.lookup_cons, hne, ih]

/-- Inversion for the classifier: it answers `false` exactly when a
prior record exists, its stored size equals the current size, and the
destination copy exists. -/
theorem needsCopy_eq_false_iff (recs : List (String × FileRec))
    (p : String) (s : Nat) (d : Bool) :
    needsCopy recs p s d = false ↔
      ∃ r, List.lookup p recs = some r ∧ r.size = s ∧ d = true := by
  unfold needsCopy
  cases h : List.lookup p recs with
  | none => simp
  | some r =>
    by_cases hs : r.size = s
    · cases d <;> simp [hs]
    · simp [hs]

/-! Frame lemmas for the per-file steps and their folds. -/

theorem smartStep_meta (snap : List (String × FileRec)) (now : Timestamp)
    (st : RunState) (f : SrcFile) :
    (smartStep snap now st f).store.meta = st.store.meta := by
  unfold smartStep
  repeat' split
  all_goals rfl

theorem smartStep_history (snap : List (String × FileRec)) (now : Timestamp)
    (st : RunState) (f : SrcFile) :
    (smartStep snap now st f).store.history = st.store.history := by
  unfold smartStep
  repeat' split
  all_goals rfl

theorem smartStep_dest_isSome {p : String} (snap : List (String × FileRec))
    (now : Timestamp) (st : RunState) (f : SrcFile)
    (h : (List.lookup p st.dest).isSome = true) :
    (List.lookup p (smartStep snap now st f).dest).isSome = true := by
  unfold smartStep
  repeat' split
  all_goals first
    | exact h
    | exact lookup_upsert_isSome st.dest f.relPath f.size h

theorem smartStep_files_isSome {p : String} (snap : List (String × FileRec))
    (now : Timestamp) (st : RunState) (f : SrcFile)
    (h : (List.lookup p st.store.files).isSome = true) :
    (List.lookup p (smartStep snap now st f).store.files).isSome = true := by
  unfold smartStep
  repeat' split
  all_goals first
    | exact h
    | exact lookup_upsert_isSome st.store.files f.relPath _ h

theorem smartStep_files_frame {p : String} (snap : List (String × FileRec))
    (now : Timestamp) (st : RunState) (f : SrcFile) (h : p ≠ f.relPath) :
    List.lookup p (smartStep snap now st f).store.files =
      List.lookup p st.store.files := by
  unfold smartStep
  repeat' split
  all_goals first
    | rfl
    | exact lookup_upsert_ne h st.store.files _

theorem fullStep_meta (now : Timestamp) (st : RunState) (f : SrcFile) :
    (fullStep now st f).store.meta = st.store.meta := by
  unfold fullStep
  repeat' split
  all_goals rfl

theorem fullStep_history (now : Timestamp) (st : RunState) (f : SrcFile) :
    (fullStep now st f).store.history = st.store.history := by
  unfold fullStep
  repeat' split
  all_goals rfl

theorem fullStep_dest_isSome {p : String} (now : Timestamp) (st : RunState)
    (f : SrcFile) (h : (List.lookup p st.dest).isSome = true) :
    (List.lookup p (fullStep now st f).dest).isSome = true := by
  unfold fullStep
  repeat' split
  all_goals first
    | exact h
    | exact lookup_upsert_isSome st.dest f.relPath f.size h

theorem fullStep_files_isSome {p : String} (now : Timestamp) (st : RunState)
    (f : SrcFile) (h : (List.lookup p st.store.files).isSome = true) :
    (List.lookup p (fullStep now st f).store.files).isSome = true := by
  unfold fullStep
  repeat' split
  all_goals first
    | exact h
    | exact lookup_upsert_isSome st.store.files f.relPath _ h

theorem foldl_smart_meta (snap : List (String × FileRec)) (now : Timestamp)
    (files : List SrcFile) (st : RunState) :
    ((files.foldl (smartStep snap now) st).store.meta) = st.store.meta := by
  induction files generalizing st with
  | nil => rfl
  | cons f t ih => rw [List.foldl_cons, ih, smartStep_meta]

theorem foldl_smart_history (snap : List (String × FileRec)) (now : Timestamp)
    (files : List SrcFile) (st : RunState) :
    ((files.foldl (smartStep snap now) st).store.history) = st.store.history := by
  induction files generalizing st with
  | nil => rfl
  | cons f t ih => rw [List.foldl_cons, ih, smartStep_history]

theorem foldl_smart_dest_isSome {p : String} (snap : List (String × FileRec))
    (now : Timestamp) (files : List SrcFile) (st : RunState)
    (h : (List.lookup p st.dest).isSome = true) :
    (List.lookup p ((files.foldl (smartStep snap now) st).dest)).isSome = true := by
  induction files generalizing st with
  | nil => exact h
  | cons f t ih =>
    rw [List.foldl_cons]
    exact ih _ (smartStep_dest_isSome snap now st f h)

theorem foldl_smart_files_isSome {p : String} (snap : List (String × FileRec))
    (now : Timestamp) (files : List SrcFile) (st : RunState)
    (h : (List.lookup p st.store.files).isSome = true) :
    (List.lookup p ((files.foldl (smartStep snap now) st).store.files)).isSome = true := by
  induction files generalizing st with
  | nil => exact h
  | cons f t ih =>
    rw [List.foldl_cons]
    exact ih _ (smartStep_files_isSome snap now st f h)

theorem foldl_smart_files_frame {p : String} (snap : List (String × FileRec))
    (now : Timestamp) (files : List SrcFile) (st : RunState)
    (h : ∀ f ∈ files, p ≠ f.relPath) :
    List.lookup p ((files.foldl (smartStep snap now) st).store.files) =
      List.lookup p st.store.files := by
  induction files generalizing st with
  | nil => rfl
  | cons f t ih =>
    rw [List.foldl_cons, ih _ (fun g hg => h g (List.mem_cons_of_mem f hg)),
      smartStep_files_frame snap now st f (h f (List.mem_cons_self f t))]

theorem foldl_full_meta (now : Timestamp) (files : List SrcFile)
    (st : RunState) :
    ((files.foldl (fullStep now) st).store.meta) = st.store.meta := by
  induction files generalizing st with
  | nil => rfl
  | cons f t ih => rw [List.foldl_cons, ih, fullStep_meta]

theorem foldl_full_history (now : Timestamp) (files : List SrcFile)
    (st : RunState) :
    ((files.foldl (fullStep now) st).store.history) = st.store.history := by
  induction files generalizing st with
  | nil => rfl
  | cons f t ih => rw [List.foldl_cons, ih, fullStep_history]

theorem foldl_full_dest_isSome {p : String} (now : Timestamp)
    (files : List SrcFile) (st : RunState)
    (h : (List.lookup p st.dest).isSome = true) :
    (List.lookup p ((files.foldl (fullStep now) st).dest)).isSome = true := by
  induction files generalizing st with
  | nil => exact h
  | cons f t ih =>
    rw [List.foldl_cons]
    exact ih _ (fullStep_dest_isSome now st f h)

theorem foldl_full_files_isSome {p : String} (now : Timestamp)
    (files : List SrcFile) (st : RunState)
    (h : (List.lookup p st.store.files).isSome = true) :
    (List.lookup p ((files.foldl (fullStep now) st).store.files)).isSome = true := by
  induction files generalizing st with
  | nil => exact h
  | cons f t ih =>
    rw [List.foldl_cons]
    exact ih _ (fullStep_files_isSome now st f h)

/-- A smart step on a file with a matching prior record and an existing
destination copy only bumps `files_skipped`. -/
theorem smartStep_skip (snap : List (String × FileRec)) (now : Timestamp)
    (st : RunState) (f : SrcFile) (hstat : f.statOk = true)
    (hrec : ∃ r, List.lookup f.relPath snap = some r ∧ r.size = f.size)
    (hdst : (List.lookup f.relPath st.dest).isSome = true) :
    smartStep snap now st f = { st with skipped := st.skipped + 1 } := by
  have hnc : needsCopy snap f.relPath f.size (destExists f.relPath st.dest)
      = false := by
    rw [needsCopy_eq_false_iff]
    obtain ⟨r, hr, hs⟩ := hrec
    exact ⟨r, hr, hs, hdst⟩
  unfold smartStep
  rw [if_neg (show ¬(f.statOk = false) by simp [hstat]),
    if_neg (show ¬(needsCopy snap f.relPath f.size
      (destExists f.relPath st.dest) = true) by simp [hnc])]

/-- After a smart fold over pairwise-distinct paths, every file that was
stat-able and copyable ends with a `files` record carrying its current
size and with its destination copy present — whether it was copied
(record and copy just written) or skipped (they existed already). -/
theorem smart_fold_establishes (snap : List (String × FileRec))
    (now : Timestamp) (files : List SrcFile) (st : RunState)
    (hsnap : ∀ f ∈ files, List.lookup f.relPath st.store.files =
      List.lookup f.relPath snap)
    (hnodup : (files.map SrcFile.relPath).Nodup) :
    ∀ f ∈ files, f.statOk = true → f.copyOk = true →
      (∃ r, List.lookup f.relPath
          ((files.foldl (smartStep snap now) st).store.files) = some r ∧
        r.size = f.size) ∧
      (List.lookup f.relPath
        ((files.foldl (smartStep snap now) st).dest)).isSome = true := by
  induction files generalizing st with
  | nil => intro f hf; cases hf
  | cons g t ih =>
    obtain ⟨hgnot, hndt⟩ :
        (∀ x ∈ t, ¬x.relPath = g.relPath) ∧
          (t.map SrcFile.relPath).Nodup := by simpa using hnodup
    intro f hf hstat hcopy
    rw [List.foldl_cons]
    rcases List.mem_cons.mp hf with hfg | hft
    · subst hfg
      have key : (∃ r, List.lookup f.relPath
            (smartStep snap now st f).store.files = some r ∧ r.size = f.size) ∧
          (List.lookup f.relPath (smartStep snap now st f).dest).isSome
            = true := by
        unfold smartStep
        rw [if_neg (show ¬(f.statOk = false) by simp [hstat])]
        by_cases hnc : needsCopy snap f.relPath f.size
            (destExists f.relPath st.dest) = true
        · rw [if_pos hnc, if_pos hcopy]
          refine ⟨⟨_, lookup_upsert_self st.store.files f.relPath _, rfl⟩, ?_⟩
          simp [lookup_upsert_self]
        · rw [if_neg hnc]
          have hnc' : needsCopy snap f.relPath f.size
              (destExists f.relPath st.dest) = false := by
            revert hnc
            cases needsCopy snap f.relPath f.size
              (destExists f.relPath st.dest) <;> simp
          obtain ⟨r, hr, hs, hd⟩ := (needsCopy_eq_false_iff snap f.relPath
            f.size (destExists f.relPath st.dest)).mp hnc'
          refine ⟨⟨r, ?_, hs⟩, hd⟩
          rw [hsnap f (List.mem_cons_self f t)]
          exact hr
      obtain ⟨⟨r, hr, hs⟩, hd⟩ := key
      refine ⟨⟨r, ?_, hs⟩, foldl_smart_dest_isSome snap now t _ hd⟩
      rw [foldl_smart_files_frame snap now t _
        (fun x hx hEq => hgnot x hx hEq.symm)]
      exact hr
    · apply ih
      · intro x hx
        have hxg : x.relPath ≠ g.relPath := hgnot x hx
        rw [smartStep_files_frame snap now st g hxg]
        exact hsnap x (List.mem_cons_of_mem g hx)
      · exact hndt
      · exact hft
      · exact hstat
      · exact hcopy

/-- A smart fold copies nothing when every stat-able, copyable file
already has a snapshot record with its current size and a destination
copy: the counter `files_copied` does not move. -/
theorem smart_fold_no_copy (snap : List (String × FileRec)) (now : Timestamp)
    (files : List SrcFile) (st : RunState)
    (h : ∀ f ∈ files, f.statOk = true → f.copyOk = true →
      (∃ r, List.lookup f.relPath snap = some r ∧ r.size = f.size) ∧
      (List.lookup f.relPath st.dest).isSome = true) :
    (files.foldl (smartStep snap now) st).copied = st.copied := by
  induction files generalizing st with
  | nil => rfl
  | cons g t ih =>
    rw [List.foldl_cons]
    have hstep_copied : (smartStep snap now st g).copied = st.copied := by
      cases hstat : g.statOk with
      | false =>
        unfold smartStep
        rw [if_pos hstat]
      | true =>
        cases hcopy : g.copyOk with
        | false =>
          unfold smartStep
          rw [if_neg (show ¬(g.statOk = false) by simp [hstat])]
          by_cases hnc : needsCopy snap g.relPath g.size
              (destExists g.relPath st.dest) = true
          · rw [if_pos hnc, if_neg (show ¬(g.copyOk = true) by simp [hcopy])]
          · rw [if_neg hnc]
        | true =>
          obtain ⟨hrec, hdst⟩ := h g (List.mem_cons_self g t) hstat hcopy
          rw [smartStep_skip snap now st g hstat hrec hdst]
    rw [ih _ (fun f hf hs hc =>
      ⟨(h f (List.mem_cons_of_mem g hf) hs hc).1,
        smartStep_dest_isSome snap now st g
          (h f (List.mem_cons_of_mem g hf) hs hc).2⟩), hstep_copied]

/-! Lemmas about the empty-directory pass. -/

/-- The pass does not change which files the tree contains. -/
theorem containsFileList_cleanDirList : (cs : List FSEntry) →
    containsFileList (cleanDirList cs) = containsFileList cs
  | [] => by simp [cleanDirList]
  | .file n :: cs => by
    simp [cleanDirList, containsFileList, containsFileList_cleanDirList cs]
  | .dir n ccs :: cs => by
    have hcc := containsFileList_cleanDirList ccs
    have hcs := containsFileList_cleanDirList cs
    by_cases he : (cleanDirList ccs).isEmpty
    · have hnil : cleanDirList ccs = [] := by
        simpa [List.isEmpty_iff] using he
      have hccfalse : containsFileList ccs = false := by
        rw [← hcc, hnil]; simp [containsFileList]
      simp [cleanDirList, he, containsFileList, hcs, hccfalse]
    · simp [cleanDirList, he, containsFileList, hcs, hcc]

/-- The pass is the filter that drops exactly the sibling directories
that are empty once everything below them has been processed. -/
theorem cleanDirList_eq_filter : (cs : List FSEntry) →
    cleanDirList cs = (cs.map cleanEntry).filter (fun c => !(isEmptyDir c))
  | [] => by simp [cleanDirList]
  | .file n :: cs => by
    simp [cleanDirList, cleanEntry, isEmptyDir, List.filter_cons,
      cleanDirList_eq_filter cs]
  | .dir n ccs :: cs => by
    by_cases he : (cleanDirList ccs).isEmpty
    · simp [cleanDirList, he, cleanEntry, isEmptyDir, List.filter_cons,
        cleanDirList_eq_filter cs]
    · simp [cleanDirList, he, cleanEntry, isEmptyDir, List.filter_cons,
        cleanDirList_eq_filter cs]

/-- A sibling that transitively contains a file is kept by the pass
(as its own cleaned version). -/
theorem cleanDirList_keeps_contains (cs : List FSEntry) :
    ∀ c ∈ cs, containsFile c = true → cleanEntry c ∈ cleanDirList cs := by
  induction cs with
  | nil => intro c hc; cases hc
  | cons g t ih =>
    intro c hc hfile
    rcases List.mem_cons.mp hc with hcg | hct
    · subst hcg
      cases c with
      | file m => simp [cleanDirList, cleanEntry]
      | dir m ccs =>
        have hcc : containsFileList (cleanDirList ccs) = true := by
          rw [containsFileList_cleanDirList]
          simpa [containsFile] using hfile
        have hne : ¬(cleanDirList ccs).isEmpty := by
          intro he
          rw [List.isEmpty_iff.mp he] at hcc
          simp [containsFileList] at hcc
        simp [cleanDirList, hne, cleanEntry]
    · cases g with
      | file m =>
        simp only [cleanDirList]
        exact List.mem_cons_of_mem _ (ih c hct hfile)
      | dir m ccs =>
        simp only [cleanDirList]
        by_cases he : (cleanDirList ccs).isEmpty
        · rw [if_pos he]
          exact ih c hct hfile
        · rw [if_neg he]
          exact List.mem_cons_of_mem _ (ih c hct hfile)

/-! Characterization of the clean-mode file pass as a filter. -/

/-- The relative paths of the walked destination files that are
orphaned (not among the source paths). -/
def orphanKeys (sourceFiles : List String) (l : List (String × Nat)) :
    List String :=
  (l.map Prod.fst).filter (fun p => !(sourceFiles.contains p))

theorem clean_fold_spec (sourceFiles : List String)
    (l : List (String × Nat)) (st : CleanState) :
    (l.foldl (cleanStep sourceFiles) st).dest =
      st.dest.filter (fun g =>
        sourceFiles.contains g.1 || !((orphanKeys sourceFiles l).contains g.1)) ∧
    (l.foldl (cleanStep sourceFiles) st).store.files =
      st.store.files.filter (fun r =>
        sourceFiles.contains r.1 || !((orphanKeys sourceFiles l).contains r.1)) ∧
    (l.foldl (cleanStep sourceFiles) st).store.history = st.store.history ∧
    (l.foldl (cleanStep sourceFiles) st).store.meta = st.store.meta := by
  induction l generalizing st with
  | nil => simp [orphanKeys]
  | cons f t ih =>
    by_cases hm : f.1 ∈ sourceFiles
    · have hc : sourceFiles.contains f.1 = true := by simp [hm]
      have hstep : cleanStep sourceFiles st f = st := by
        unfold cleanStep; rw [if_pos hc]
      have hk : orphanKeys sourceFiles (f :: t) = orphanKeys sourceFiles t := by
        simp [orphanKeys, List.filter_cons, hm]
      rw [List.foldl_cons, hstep, hk]
      exact ih st
    · have hc : ¬(sourceFiles.contains f.1 = true) := by simp [hm]
      have hk : orphanKeys sourceFiles (f :: t) =
          f.1 :: orphanKeys sourceFiles t := by
        simp [orphanKeys, List.filter_cons, hm]
      have hstep : cleanStep sourceFiles st f =
          ⟨st.dest.filter (fun g => !(g.1 == f.1)),
           { st.store with
             files := st.store.files.filter (fun r => !(r.1 == f.1)) },
           st.removed + 1⟩ := by
        unfold cleanStep; rw [if_neg hc]
      rw [List.foldl_cons, hstep, hk]
      obtain ⟨h1, h2, h3, h4⟩ := ih
        (⟨st.dest.filter (fun g => !(g.1 == f.1)),
          { st.store with
            files := st.store.files.filter (fun r => !(r.1 == f.1)) },
          st.removed + 1⟩)
      refine ⟨?_, ?_, h3, h4⟩
      · rw [h1, List.filter_filter]
        apply List.filter_congr
        intro g _
        by_cases he : g.1 = f.1
        · simp [he, hm]
        · simp [he]
      · rw [h2, List.filter_filter]
        apply List.filter_congr
        intro r _
        by_cases he : r.1 = f.1
        · simp [he, hm]
        · simp [he]

/-! Unfolding helpers for the two copying runs on a present source. -/

theorem smartBackup_parts (now : Timestamp) (sp bp : String)
    (files : List SrcFile) (dest : List (String × Nat)) (store : Store) :
    (smartBackup now sp bp (some files) dest store).dest =
      (files.foldl (smartStep store.files now) (initRun dest store)).dest ∧
    (smartBackup now sp bp (some files) dest store).store.files =
      (files.foldl (smartStep store.files now) (initRun dest store)).store.files ∧
    (smartBackup now sp bp (some files) dest store).copied =
      (files.foldl (smartStep store.files now) (initRun dest store)).copied ∧
    (smartBackup now sp bp (some files) dest store).store.meta =
      upsert ((files.foldl (smartStep store.files now)
        (initRun dest store)).store.meta) "last_backup_date" now ∧
    (smartBackup now sp bp (some files) dest store).store.history =
      (files.foldl (smartStep store.files now) (initRun dest store)).store.history
        ++ [⟨"smart", now,
          (files.foldl (smartStep store.files now) (initRun dest store)).copied,
          sp, bp⟩] :=
  ⟨rfl, rfl, rfl, rfl, rfl⟩

theorem fullBackup_parts (now : Timestamp) (sp bp : String)
    (files : List SrcFile) (dest : List (String × Nat)) (store : Store) :
    (fullBackup now sp bp (some files) dest store).dest =
      (files.foldl (fullStep now) (initRun dest store)).dest ∧
    (fullBackup now sp bp (some files) dest store).store.files =
      (files.foldl (fullStep now) (initRun dest store)).store.files ∧
    (fullBackup now sp bp (some files) dest store).copied =
      (files.foldl (fullStep now) (initRun dest store)).copied ∧
    (fullBackup now sp bp (some files) dest store).store.meta =
      upsert ((files.foldl (fullStep now) (initRun dest store)).store.meta)
        "last_backup_date" now ∧
    (fullBackup now sp bp (some files) dest store).store.history =
      (files.foldl (fullStep now) (initRun dest store)).store.history
        ++ [⟨"full", now,
          (files.foldl (fullStep now) (initRun dest store)).copied, sp, bp⟩] :=
  ⟨rfl, rfl, rfl, rfl, rfl⟩

/-! The claims. -/

/-- C1: during a Smart backup the copy decision follows the first-match
cascade — no prior record for the path ⇒ copy; prior record's stored
size differs from the current size ⇒ copy; destination file missing ⇒
copy; otherwise skip.  The decision reads only the record's presence
and stored size, never the modification time (two record tables that
agree on stored sizes decide identically), and the per-file Smart step
(for a file whose stat and copy succeed) copies exactly when the
cascade says so. -/
theorem smart_copy_decision_cascade (recs recs' : List (String × FileRec))
    (p : String) (s : Nat) (d : Bool) (r : FileRec) :
    (List.lookup p recs = none → needsCopy recs p s d = true) ∧
    (List.lookup p recs = some r → r.size ≠ s → needsCopy recs p s d = true) ∧
    (List.lookup p recs = some r → r.size = s → d = false →
      needsCopy recs p s d = true) ∧
    (List.lookup p recs = some r → r.size = s → d = true →
      needsCopy recs p s d = false) ∧
    ((List.lookup p recs).map FileRec.size =
        (List.lookup p recs').map FileRec.size →
      needsCopy recs p s d = needsCopy recs' p s d) ∧
    (∀ (now : Timestamp) (st : RunState) (f : SrcFile), f.statOk = true →
      f.copyOk = true →
      smartStep recs now st f =
        (if needsCopy recs f.relPath f.size (destExists f.relPath st.dest) then
          { st with
            dest := upsert st.dest f.relPath f.size
            copied := st.copied + 1
            store := { st.store with
              files := upsert st.store.files f.relPath
                ⟨f.size, f.mtime, now⟩ } }
        else { st with skipped := st.skipped + 1 })) := by
  refine ⟨?_, ?_, ?_, ?_, ?_, ?_⟩
  · intro h; simp [needsCopy, h]
  · intro h hs; simp [needsCopy, h, hs]
  · intro h hs hd; subst hd; simp [needsCopy, h, hs]
  · intro h hs hd; subst hd; simp [needsCopy, h, hs]
  · intro h
    unfold needsCopy
    cases h1 : List.lookup p recs with
    | none =>
      cases h2 : List.lookup p recs' with
      | none => rfl
      | some r2 => rw [h1, h2] at h; simp at h
    | some r1 =>
      cases h2 : List.lookup p recs' with
      | none => rw [h1, h2] at h; simp at h
      | some r2 =>
        rw [h1, h2] at h
        show (if r1.size ≠ s then true else if (!d) = true then true
            else false) =
          (if r2.size ≠ s then true else if (!d) = true then true else false)
        rw [show r1.size = r2.size from by simpa using h]
  · intro now st f hstat hcopy
    unfold smartStep
    rw [if_neg (show ¬(f.statOk = false) by simp [hstat])]
    by_cases hnc : needsCopy recs f.relPath f.size
        (destExists f.relPath st.dest) = true
    · rw [if_pos hnc, if_pos hcopy, if_pos hnc]
    · rw [if_neg hnc, if_neg hnc]

/-- Witness for C1: a path without a record is classified copy-worthy,
and a path whose record matches the size with the destination present
is classified skip-worthy. -/
theorem smart_copy_decision_cascade_witness :
    needsCopy [] "a.txt" 5 true = true ∧
    needsCopy [("a.txt", ⟨5, 7, ⟨0, 0⟩⟩)] "a.txt" 5 true = false := by
  constructor
  · exact (smart_copy_decision_cascade [] [] "a.txt" 5 true
      ⟨5, 7, ⟨0, 0⟩⟩).1 rfl
  · exact (smart_copy_decision_cascade [("a.txt", ⟨5, 7, ⟨0, 0⟩⟩)] []
      "a.txt" 5 true ⟨5, 7, ⟨0, 0⟩⟩).2.2.2.1 (by simp) rfl rfl

/-- C7: if the source root is missing, a Full or Smart run returns
immediately: destination files, records, history, settings, and all
counters are exactly as before. -/
theorem missing_source_aborts (now : Timestamp) (sp bp : String)
    (dest : List (String × Nat)) (store : Store) :
    fullBackup now sp bp none dest store = ⟨dest, store, 0, 0, 0⟩ ∧
    smartBackup now sp bp none dest store = ⟨dest, store, 0, 0, 0⟩ :=
  ⟨rfl, rfl⟩

/-- C4 (amended): a completed Clean run appends no history entry at all
and leaves the settings table (including the last-backup timestamp)
untouched; the removal count is only printed and logged. -/
theorem clean_run_appends_no_history (source : Option (List String))
    (dest : List (String × Nat)) (store : Store) :
    (cleanBackup source dest store).store.history = store.history ∧
    (cleanBackup source dest store).store.meta = store.meta := by
  obtain ⟨-, -, h3, h4⟩ :=
    clean_fold_spec (sourceFileSet source) dest ⟨dest, store, 0⟩
  exact ⟨h3, h4⟩

/-- C4 counterexample: a completed Clean run (source present but empty,
destination holding one file) removes one file yet appends no
`BackupHistoryEntry` whatsoever — in particular none with type `clean`
and count 1 as claimed. -/
theorem clean_history_counterexample :
    (cleanBackup (some []) [("a.txt", 5)] ⟨[], [], []⟩).removed = 1 ∧
    (cleanBackup (some []) [("a.txt", 5)] ⟨[], [], []⟩).store.history = [] ∧
    ¬∃ e : HistoryEntry,
      e ∈ (cleanBackup (some []) [("a.txt", 5)] ⟨[], [], []⟩).store.history ∧
      e.backupType = "clean" := by
  refine ⟨rfl, rfl, ?_⟩
  rintro ⟨e, he, -⟩
  rw [show (cleanBackup (some []) [("a.txt", 5)]
    ⟨[], [], []⟩).store.history = [] from rfl] at he
  cases he

/-- C5 (amended): a file whose stat fails during a Smart scan is
excluded from further processing — not copied, not recorded, not even
counted as skipped — and the walk continues with the remaining files,
but it is NOT counted in the run's error count (the step is a no-op);
in Full mode the copy precedes the stat, so such a file is still copied
and counted as copied, the stat failure only suppressing its record
update. -/
theorem stat_error_exclusion (snap : List (String × FileRec))
    (now : Timestamp) (st : RunState) (f : SrcFile) (rest : List SrcFile)
    (h : f.statOk = false) :
    smartStep snap now st f = st ∧
    (f :: rest).foldl (smartStep snap now) st =
      rest.foldl (smartStep snap now) st ∧
    (f.copyOk = true →
      fullStep now st f =
        { st with
          dest := upsert st.dest f.relPath f.size
          copied := st.copied + 1 }) := by
  have h1 : smartStep snap now st f = st := by
    unfold smartStep; rw [if_pos h]
  refine ⟨h1, ?_, ?_⟩
  · rw [List.foldl_cons, h1]
  · intro hc
    unfold fullStep
    rw [if_neg (show ¬(f.copyOk = false) by simp [hc]),
      if_neg (show ¬(f.statOk = true) by simp [h])]

/-- Witness for C5's amended statement at a concrete stat-failing file. -/
theorem stat_error_exclusion_witness :
    smartStep [] ⟨0, 0⟩ (initRun [] ⟨[], [], []⟩)
      ⟨"a.txt", 5, 0, false, true⟩ = initRun [] ⟨[], [], []⟩ :=
  (stat_error_exclusion [] ⟨0, 0⟩ (initRun [] ⟨[], [], []⟩)
    ⟨"a.txt", 5, 0, false, true⟩ [] rfl).1

/-- C5 counterexample: a Smart run over one file whose stat fails ends
with error count 0 — the file is silently excluded rather than counted
as an error as claimed — and a Full run over the same file still copies
it (copy count 1, error count 0), contradicting "not copied". -/
theorem stat_error_counterexample :
    (smartBackup ⟨0, 0⟩ "s" "b" (some [⟨"a.txt", 5, 0, false, true⟩])
      [] ⟨[], [], []⟩).errors = 0 ∧
    (smartBackup ⟨0, 0⟩ "s" "b" (some [⟨"a.txt", 5, 0, false, true⟩])
      [] ⟨[], [], []⟩).copied = 0 ∧
    (smartBackup ⟨0, 0⟩ "s" "b" (some [⟨"a.txt", 5, 0, false, true⟩])
      [] ⟨[], [], []⟩).store.files = [] ∧
    (fullBackup ⟨0, 0⟩ "s" "b" (some [⟨"a.txt", 5, 0, false, true⟩])
      [] ⟨[], [], []⟩).copied = 1 ∧
    (fullBackup ⟨0, 0⟩ "s" "b" (some [⟨"a.txt", 5, 0, false, true⟩])
      [] ⟨[], [], []⟩).errors = 0 :=
  ⟨rfl, rfl, rfl, rfl, rfl⟩

/-- C6: the `last_backup_date` settings key is overwritten with the run
timestamp at the end of every Full run and every Smart run (source
present), no other settings key is changed by them, and a Clean run
leaves the settings table entirely unchanged. -/
theorem last_backup_date_discipline (now : Timestamp) (sp bp : String)
    (files : List SrcFile) (dest : List (String × Nat)) (store : Store)
    (csource : Option (List String)) (cdest : List (String × Nat))
    (cstore : Store) (k : String) :
    List.lookup "last_backup_date"
      (fullBackup now sp bp (some files) dest store).store.meta = some now ∧
    (k ≠ "last_backup_date" →
      List.lookup k (fullBackup now sp bp (some files) dest store).store.meta
        = List.lookup k store.meta) ∧
    List.lookup "last_backup_date"
      (smartBackup now sp bp (some files) dest store).store.meta = some now ∧
    (k ≠ "last_backup_date" →
      List.lookup k (smartBackup now sp bp (some files) dest store).store.meta
        = List.lookup k store.meta) ∧
    (cleanBackup csource cdest cstore).store.meta = cstore.meta := by
  obtain ⟨-, -, -, hfm, -⟩ := fullBackup_parts now sp bp files dest store
  obtain ⟨-, -, -, hsm, -⟩ := smartBackup_parts now sp bp files dest store
  refine ⟨?_, ?_, ?_, ?_, ?_⟩
  · rw [hfm]; exact lookup_upsert_self _ _ _
  · intro hk
    rw [hfm, lookup_upsert_ne hk, foldl_full_meta]; rfl
  · rw [hsm]; exact lookup_upsert_self _ _ _
  · intro hk
    rw [hsm, lookup_upsert_ne hk, foldl_smart_meta]; rfl
  · obtain ⟨-, -, -, h4⟩ :=
      clean_fold_spec (sourceFileSet csource) cdest ⟨cdest, cstore, 0⟩
    exact h4

/-- Witness for C6 at concrete runs: a Full run writes the timestamp
key, leaves a foreign settings key alone, and a Clean run leaves the
settings unchanged. -/
theorem last_backup_date_discipline_witness :
    List.lookup "last_backup_date"
      (fullBackup ⟨3, 0⟩ "s" "b" (some []) [] ⟨[("other", ⟨1, 0⟩)], [], []⟩
        ).store.meta = some ⟨3, 0⟩ ∧
    List.lookup "other"
      (fullBackup ⟨3, 0⟩ "s" "b" (some []) [] ⟨[("other", ⟨1, 0⟩)], [], []⟩
        ).store.meta = some ⟨1, 0⟩ := by
  have h := last_backup_date_discipline ⟨3, 0⟩ "s" "b" [] []
    ⟨[("other", ⟨1, 0⟩)], [], []⟩ none [] ⟨[], [], []⟩ "other"
  refine ⟨h.1, ?_⟩
  rw [h.2.1 (by simp)]
  rfl

/-- C10: Full and Smart runs only add.  Every destination path present
before is still present after; every `files` record key present before
is still present after (no record is deleted); the history is the old
history plus exactly one appended entry of the run's type; and the only
settings key they touch is `last_backup_date`. -/
theorem full_smart_additive_frame (now : Timestamp) (sp bp : String)
    (files : List SrcFile) (dest : List (String × Nat)) (store : Store)
    (p k : String) :
    ((List.lookup p dest).isSome = true →
      (List.lookup p
        (fullBackup now sp bp (some files) dest store).dest).isSome = true) ∧
    ((List.lookup p store.files).isSome = true →
      (List.lookup p
        (fullBackup now sp bp (some files) dest store).store.files).isSome
          = true) ∧
    (∃ e : HistoryEntry,
      (fullBackup now sp bp (some files) dest store).store.history =
        store.history ++ [e] ∧ e.backupType = "full") ∧
    (k ≠ "last_backup_date" →
      List.lookup k (fullBackup now sp bp (some files) dest store).store.meta
        = List.lookup k store.meta) ∧
    ((List.lookup p dest).isSome = true →
      (List.lookup p
        (smartBackup now sp bp (some files) dest store).dest).isSome = true) ∧
    ((List.lookup p store.files).isSome = true →
      (List.lookup p
        (smartBackup now sp bp (some files) dest store).store.files).isSome
          = true) ∧
    (∃ e : HistoryEntry,
      (smartBackup now sp bp (some files) dest store).store.history =
        store.history ++ [e] ∧ e.backupType = "smart") ∧
    (k ≠ "last_backup_date" →
      List.lookup k (smartBackup now sp bp (some files) dest store).store.meta
        = List.lookup k store.meta) := by
  obtain ⟨hfd, hff, -, hfm, hfh⟩ := fullBackup_parts now sp bp files dest store
  obtain ⟨hsd, hsf, -, hsm, hsh⟩ := smartBackup_parts now sp bp files dest store
  refine ⟨?_, ?_, ?_, ?_, ?_, ?_, ?_, ?_⟩
  · intro h; rw [hfd]; exact foldl_full_dest_isSome now files _ h
  · intro h; rw [hff]; exact foldl_full_files_isSome now files _ h
  · refine ⟨⟨"full", now,
      (files.foldl (fullStep now) (initRun dest store)).copied, sp, bp⟩,
      ?_, rfl⟩
    rw [hfh, foldl_full_history]; rfl
  · intro hk; rw [hfm, lookup_upsert_ne hk, foldl_full_meta]; rfl
  · intro h; rw [hsd]
    exact foldl_smart_dest_isSome store.files now files _ h
  · intro h; rw [hsf]
    exact foldl_smart_files_isSome store.files now files _ h
  · refine ⟨⟨"smart", now,
      (files.foldl (smartStep store.files now) (initRun dest store)).copied,
      sp, bp⟩, ?_, rfl⟩
    rw [hsh, foldl_smart_history]; rfl
  · intro hk; rw [hsm, lookup_upsert_ne hk, foldl_smart_meta]; rfl

/-- Witness for C10: after a Full and a Smart run over a one-file
source, the pre-existing destination file and record are still there,
and a foreign settings key is untouched. -/
theorem full_smart_additive_frame_witness :
    (List.lookup "old.txt"
      (fullBackup ⟨0, 0⟩ "s" "b" (some [⟨"a.txt", 5, 0, true, true⟩])
        [("old.txt", 9)]
        ⟨[("other", ⟨1, 0⟩)], [], [("old.txt", ⟨9, 0, ⟨0, 0⟩⟩)]⟩
        ).dest).isSome = true ∧
    (List.lookup "old.txt"
      (smartBackup ⟨0, 0⟩ "s" "b" (some [⟨"a.txt", 5, 0, true, true⟩])
        [("old.txt", 9)]
        ⟨[("other", ⟨1, 0⟩)], [], [("old.txt", ⟨9, 0, ⟨0, 0⟩⟩)]⟩
        ).store.files).isSome = true := by
  have h := full_smart_additive_frame ⟨0, 0⟩ "s" "b"
    [⟨"a.txt", 5, 0, true, true⟩] [("old.txt", 9)]
    ⟨[("other", ⟨1, 0⟩)], [], [("old.txt", ⟨9, 0, ⟨0, 0⟩⟩)]⟩ "old.txt" "other"
  exact ⟨h.1 rfl, h.2.2.2.2.2.1 rfl⟩

/-- C2: Smart mode is idempotent.  A file whose snapshot record stores
its current size and whose destination copy exists is skipped (only the
skipped counter moves); consequently, replaying the same source walk
(pairwise-distinct relative paths, no stat errors) right after a Smart
run copies nothing: the first run upserted a record with the current
size and wrote the destination copy for every file it copied, and left
intact those of every file it skipped. -/
theorem smart_backup_idempotent (now1 now2 : Timestamp) (sp bp : String)
    (files : List SrcFile) (dest0 : List (String × Nat)) (store0 : Store)
    (hnodup : (files.map SrcFile.relPath).Nodup)
    (_hstat : ∀ f ∈ files, f.statOk = true) :
    (∀ (snap : List (String × FileRec)) (st : RunState) (f : SrcFile),
      f.statOk = true →
      (∃ r, List.lookup f.relPath snap = some r ∧ r.size = f.size) →
      (List.lookup f.relPath st.dest).isSome = true →
      smartStep snap now2 st f = { st with skipped := st.skipped + 1 }) ∧
    (smartBackup now2 sp bp (some files)
      (smartBackup now1 sp bp (some files) dest0 store0).dest
      (smartBackup now1 sp bp (some files) dest0 store0).store).copied = 0 := by
  constructor
  · exact fun snap st f h1 h2 h3 => smartStep_skip snap now2 st f h1 h2 h3
  · have hest := smart_fold_establishes store0.files now1 files
      (initRun dest0 store0) (fun f _ => rfl) hnodup
    have hrun1f : (smartBackup now1 sp bp (some files) dest0 store0).store.files
        = (files.foldl (smartStep store0.files now1)
            (initRun dest0 store0)).store.files := rfl
    have hrun1d : (smartBackup now1 sp bp (some files) dest0 store0).dest
        = (files.foldl (smartStep store0.files now1)
            (initRun dest0 store0)).dest := rfl
    have hmain : (smartBackup now2 sp bp (some files)
        (smartBackup now1 sp bp (some files) dest0 store0).dest
        (smartBackup now1 sp bp (some files) dest0 store0).store).copied
        = (files.foldl
            (smartStep (smartBackup now1 sp bp (some files)
              dest0 store0).store.files now2)
            (initRun (smartBackup now1 sp bp (some files) dest0 store0).dest
              (smartBackup now1 sp bp (some files) dest0 store0).store)).copied
        := rfl
    rw [hmain]
    rw [smart_fold_no_copy _ now2 files _ ?_]
    · rfl
    · intro f hf hs hc
      obtain ⟨hrec, hdst⟩ := hest f hf hs hc
      constructor
      · rw [hrun1f]; exact hrec
      · show (List.lookup f.relPath
          (smartBackup now1 sp bp (some files) dest0 store0).dest).isSome
            = true
        rw [hrun1d]; exact hdst

/-- Witness for C2: one unchanged file, two consecutive Smart runs, the
second copies nothing. -/
theorem smart_backup_idempotent_witness :
    (smartBackup ⟨1, 0⟩ "s" "b" (some [⟨"a.txt", 5, 0, true, true⟩])
      (smartBackup ⟨0, 0⟩ "s" "b" (some [⟨"a.txt", 5, 0, true, true⟩])
        [] ⟨[], [], []⟩).dest
      (smartBackup ⟨0, 0⟩ "s" "b" (some [⟨"a.txt", 5, 0, true, true⟩])
        [] ⟨[], [], []⟩).store).copied = 0 :=
  (smart_backup_idempotent ⟨0, 0⟩ ⟨1, 0⟩ "s" "b"
    [⟨"a.txt", 5, 0, true, true⟩] [] ⟨[], [], []⟩
    (by simp) (by simp)).2

/-! Key-determined filters and `List.lookup`, for the Clean file pass. -/

theorem lookup_filter_of_key_true {α : Type} {pred : String × α → Bool}
    {q : String} (h : ∀ v : α, pred (q, v) = true) :
    ∀ l : List (String × α), List.lookup q (l.filter pred) = List.lookup q l
  | [] => rfl
  | (a, b) :: t => by
    by_cases hqa : q = a
    · subst hqa
      rw [List.filter_cons, if_pos (by rw [h b])]
      simp [List.lookup_cons]
    · have hne : (q == a) = false := by simp [hqa]
      cases hp : pred (a, b) with
      | true =>
        rw [List.filter_cons, if_pos (by rw [hp])]
        simp [List.lookup_cons, hne, lookup_filter_of_key_true h t]
      | false =>
        rw [List.filter_cons, if_neg (by simp [hp])]
        simp [List.lookup_cons, hne, lookup_filter_of_key_true h t]

theorem lookup_filter_of_key_false {α : Type} {pred : String × α → Bool}
    {q : String} (h : ∀ v : α, pred (q, v) = false) :
    ∀ l : List (String × α), List.lookup q (l.filter pred) = none
  | [] => rfl
  | (a, b) :: t => by
    by_cases hqa : q = a
    · subst hqa
      rw [List.filter_cons, if_neg (by simp [h b])]
      exact lookup_filter_of_key_false h t
    · have hne : (q == a) = false := by simp [hqa]
      cases hp : pred (a, b) with
      | true =>
        rw [List.filter_cons, if_pos (by rw [hp])]
        simp [List.lookup_cons, hne, lookup_filter_of_key_false h t]
      | false =>
        rw [List.filter_cons, if_neg (by simp [hp])]
        exact lookup_filter_of_key_false h t

/-- C3: during a Clean run, every destination file whose relative path
is not among the paths currently present under the source tree is
deleted from the destination and its record removed from the store;
every destination file whose path is in that set is left untouched
(destination entry and record); and when the source directory is absent
the set is empty, so the destination file list ends empty. -/
theorem clean_orphan_removal (source : Option (List String))
    (dest : List (String × Nat)) (store : Store) (p : String) :
    (p ∈ dest.map Prod.fst → p ∉ sourceFileSet source →
      List.lookup p (cleanBackup source dest store).dest = none ∧
      List.lookup p (cleanBackup source dest store).store.files = none) ∧
    (p ∈ sourceFileSet source →
      List.lookup p (cleanBackup source dest store).dest =
        List.lookup p dest ∧
      List.lookup p (cleanBackup source dest store).store.files =
        List.lookup p store.files) ∧
    (source = none → (cleanBackup source dest store).dest = []) := by
  obtain ⟨h1, h2, -, -⟩ :=
    clean_fold_spec (sourceFileSet source) dest ⟨dest, store, 0⟩
  have hcb : cleanBackup source dest store =
      dest.foldl (cleanStep (sourceFileSet source)) ⟨dest, store, 0⟩ := rfl
  refine ⟨?_, ?_, ?_⟩
  · intro hmem hnot
    have hcs : (sourceFileSet source).contains p = false := by simp [hnot]
    have hokm : p ∈ orphanKeys (sourceFileSet source) dest := by
      simp [orphanKeys, hmem, hnot]
    constructor
    · rw [hcb, h1]
      exact lookup_filter_of_key_false (fun v => by simp [hnot, hokm]) dest
    · rw [hcb, h2]
      exact lookup_filter_of_key_false (fun v => by simp [hnot, hokm])
        store.files
  · intro hmem
    have hcs : (sourceFileSet source).contains p = true := by simp [hmem]
    constructor
    · rw [hcb, h1]
      exact lookup_filter_of_key_true (fun v => by simp [hmem]) dest
    · rw [hcb, h2]
      exact lookup_filter_of_key_true (fun v => by simp [hmem]) store.files
  · intro hnone
    subst hnone
    rw [hcb, h1]
    apply List.filter_eq_nil_iff.mpr
    intro a ha
    simp [sourceFileSet, orphanKeys]
    exact ⟨a.2, ha⟩

/-- Witness for C3: with source set `keep.txt`, the orphaned
destination file `orphan.txt` disappears from the destination and its
record from the store, while `keep.txt` keeps both. -/
theorem clean_orphan_removal_witness :
    List.lookup "orphan.txt"
      (cleanBackup (some ["keep.txt"]) [("keep.txt", 1), ("orphan.txt", 2)]
        ⟨[], [], [("keep.txt", ⟨1, 0, ⟨0, 0⟩⟩),
          ("orphan.txt", ⟨2, 0, ⟨0, 0⟩⟩)]⟩).dest = none ∧
    List.lookup "orphan.txt"
      (cleanBackup (some ["keep.txt"]) [("keep.txt", 1), ("orphan.txt", 2)]
        ⟨[], [], [("keep.txt", ⟨1, 0, ⟨0, 0⟩⟩),
          ("orphan.txt", ⟨2, 0, ⟨0, 0⟩⟩)]⟩).store.files = none ∧
    List.lookup "keep.txt"
      (cleanBackup (some ["keep.txt"]) [("keep.txt", 1), ("orphan.txt", 2)]
        ⟨[], [], [("keep.txt", ⟨1, 0, ⟨0, 0⟩⟩),
          ("orphan.txt", ⟨2, 0, ⟨0, 0⟩⟩)]⟩).dest =
      List.lookup "keep.txt" [("keep.txt", 1), ("orphan.txt", 2)] := by
  have ho := (clean_orphan_removal (some ["keep.txt"])
    [("keep.txt", 1), ("orphan.txt", 2)]
    ⟨[], [], [("keep.txt", ⟨1, 0, ⟨0, 0⟩⟩), ("orphan.txt", ⟨2, 0, ⟨0, 0⟩⟩)]⟩
    "orphan.txt").1 (by simp) (by simp [sourceFileSet])
  have hk := ((clean_orphan_removal (some ["keep.txt"])
    [("keep.txt", 1), ("orphan.txt", 2)]
    ⟨[], [], [("keep.txt", ⟨1, 0, ⟨0, 0⟩⟩), ("orphan.txt", ⟨2, 0, ⟨0, 0⟩⟩)]⟩
    "keep.txt").2.1 (by simp [sourceFileSet])).1
  exact ⟨ho.1, ho.2, hk⟩

/-- C9: the second pass of a Clean run works bottom-up — each
directory's children are fully processed before the directory itself is
checked — and a walked directory is removed exactly when it is empty at
the moment of its check; consequently a directory that still
transitively contains a file is never removed, the pass preserves which
files the tree contains, and the destination root itself is never
removed (it is not among the walked `dirs`; its cleaned form is still
the same directory node). -/
theorem clean_empty_dirs_safe (rootName : String) (cs : List FSEntry) :
    cleanEntry (.dir rootName cs) = .dir rootName (cleanEmptyDirs cs) ∧
    cleanEmptyDirs cs = (cs.map cleanEntry).filter (fun c => !(isEmptyDir c)) ∧
    (∀ c ∈ cs, containsFile c = true → cleanEntry c ∈ cleanEmptyDirs cs) ∧
    (∀ c ∈ cs, cleanEntry c ∉ cleanEmptyDirs cs → containsFile c = false) ∧
    containsFileList (cleanEmptyDirs cs) = containsFileList cs := by
  refine ⟨rfl, cleanDirList_eq_filter cs, cleanDirList_keeps_contains cs,
    ?_, containsFileList_cleanDirList cs⟩
  intro c hc hnot
  cases h : containsFile c
  · rfl
  · exact absurd (cleanDirList_keeps_contains cs c hc h) hnot

/-- Witness for C9: in a destination with a non-empty directory `d` and
an empty directory `e`, the pass keeps `d` (it contains a file). -/
theorem clean_empty_dirs_safe_witness :
    containsFile (.dir "d" [.file "x"]) = true ∧
    cleanEntry (.dir "d" [.file "x"]) ∈
      cleanEmptyDirs [.dir "d" [.file "x"], .dir "e" []] := by
  have hc : containsFile (.dir "d" [.file "x"]) = true := by
    simp [containsFile, containsFileList]
  exact ⟨hc, (clean_empty_dirs_safe "root"
    [.dir "d" [.file "x"], .dir "e" []]).2.2.1 _
    (List.mem_cons_self _ _) hc⟩

/-- C8: the Overdue Checker (absent from `src/`, modelled from the
spec) reads the last-backup timestamp — settings key first, then the
most recent history entry, else `NoHistory` — and, when one exists,
classifies by the whole-day calendar difference: `Overdue` exactly when
it strictly exceeds the threshold (default 3), else `Fresh`; a last
backup 4 calendar days ago with threshold 3 is `Overdue` with
`daysSince = 4`, one 2 days ago is `Fresh` with `daysSince = 2`, and no
settings row with no history rows is `NoHistory`. -/
theorem overdue_checker_contract (store : Store) (now ts : Timestamp)
    (threshold : Int) :
    defaultOverdueThreshold = 3 ∧
    (List.lookup "last_backup_date" store.meta = none → store.history = [] →
      checkOverdue store now threshold = .noHistory) ∧
    (lastBackupTimestamp store = some ts →
      checkOverdue store now threshold =
        (if daysBetween now ts > threshold then
          .overdue ts (daysBetween now ts)
        else .fresh ts (daysBetween now ts))) ∧
    (lastBackupTimestamp store = some ts → ts.day = now.day - 4 →
      checkOverdue store now 3 = .overdue ts 4) ∧
    (lastBackupTimestamp store = some ts → ts.day = now.day - 2 →
      checkOverdue store now 3 = .fresh ts 2) := by
  refine ⟨rfl, ?_, ?_, ?_, ?_⟩
  · intro h1 h2
    unfold checkOverdue lastBackupTimestamp
    rw [h1, h2]
    rfl
  · intro h
    unfold checkOverdue
    rw [h]
  · intro h hday
    unfold checkOverdue
    rw [h]
    have hd : daysBetween now ts = 4 := by unfold daysBetween; omega
    simp only [hd]
    rfl
  · intro h hday
    unfold checkOverdue
    rw [h]
    have hd : daysBetween now ts = 2 := by unfold daysBetween; omega
    simp only [hd]
    rfl

/-- Witness for C8 at the spec's three examples, plus the fallback to
the most recent history entry when the settings key is absent. -/
theorem overdue_checker_contract_witness :
    checkOverdue ⟨[("last_backup_date", ⟨0, 0⟩)], [], []⟩ ⟨4, 0⟩ 3 =
      .overdue ⟨0, 0⟩ 4 ∧
    checkOverdue ⟨[("last_backup_date", ⟨2, 0⟩)], [], []⟩ ⟨4, 0⟩ 3 =
      .fresh ⟨2, 0⟩ 2 ∧
    checkOverdue ⟨[], [], []⟩ ⟨4, 0⟩ 3 = .noHistory ∧
    checkOverdue ⟨[], [⟨"clean", ⟨0, 0⟩, 1, "s", "b"⟩], []⟩ ⟨4, 0⟩ 3 =
      .overdue ⟨0, 0⟩ 4 := by
  refine ⟨?_, ?_, ?_, ?_⟩
  · exact (overdue_checker_contract ⟨[("last_backup_date", ⟨0, 0⟩)], [], []⟩
      ⟨4, 0⟩ ⟨0, 0⟩ 3).2.2.2.1 rfl (by decide)
  · exact (overdue_checker_contract ⟨[("last_backup_date", ⟨2, 0⟩)], [], []⟩
      ⟨4, 0⟩ ⟨2, 0⟩ 3).2.2.2.2 rfl (by decide)
  · exact (overdue_checker_contract ⟨[], [], []⟩ ⟨4, 0⟩ ⟨0, 0⟩ 3).2.1 rfl rfl
  · exact (overdue_checker_contract ⟨[], [⟨"clean", ⟨0, 0⟩, 1, "s", "b"⟩], []⟩
      ⟨4, 0⟩ ⟨0, 0⟩ 3).2.2.2.1 rfl (by decide)
